import Mathlib

/-!
# Verification of the `useFilters` filter-store subsystem

Shallow embedding of the filter-state subsystem of this repository:

* the store hook `useFilters` (the version taking a `filtersStoredAs`
  namespace key): state initialization from the persisted blob,
  `setFilterValue`, `removeFilter`, `clearFilters`, `getAppliedFilters`,
  `getQueryString`, and the persistence effect;
* the `FiltersSheet` controller's submit and clear paths.

JavaScript runtime values that can appear as a filter value
(`string | string[] | number | boolean`, plus `null`/`undefined` which the
source explicitly checks for) are embedded as the inductive `JsVal`.
JavaScript numbers are modelled as integers together with a distinguished
`NaN`: the code under verification never performs float arithmetic, it only
tests values with `Number.isNaN` and serializes them, so this integral
fragment is faithful for every property stated here.

The store's mapping (a JavaScript object) is embedded as an insertion-ordered
association list `Filters`.  JavaScript object property enumeration
(`Object.entries`, spread, `JSON.stringify`) does *not* follow pure insertion
order: keys that are canonical array indices are enumerated first, in
ascending numeric order, and only the remaining string keys follow insertion
order.  The function `jsOwnEntries` reproduces that enumeration order, and
every embedded operation that enumerates the object goes through it.
-/

set_option autoImplicit false

namespace WorkupFilters

/-- JavaScript numbers as they occur in this subsystem: an integer or `NaN`.
(The code only ever tests numbers with `Number.isNaN` and serializes them;
no float arithmetic occurs, so this fragment suffices.) -/
inductive JsNum where
  | nan
  | int (n : Int)
  deriving DecidableEq

/-- JavaScript runtime values that can appear as a filter value.  The
TypeScript type of `FilterValue.value` is `string | string[] | number |
boolean`; `null` and `undefined` are included because the source's
`getAppliedFilters` explicitly tests for them (they can reach the store via
`JSON.parse` of a persisted blob). -/
inductive JsVal where
  | str (s : String)
  | num (n : JsNum)
  | bool (b : Bool)
  | null
  | undef
  | arr (elems : List JsVal)

/-- Embeds the `FilterValue` interface of the store hook:
`{ value; isHidden; appliedInternally }`. -/
structure FilterValue where
  value : JsVal
  isHidden : Bool
  appliedInternally : Bool

/-- Embeds the `Filters` mapping (`{ [key: string]: FilterValue }`): a
JavaScript object, kept as its insertion-ordered list of properties. -/
abbrev Filters := List (String × FilterValue)

/-- Numeric value of a digit string. -/
def digitsToNat (cs : List Char) : Nat :=
  cs.foldl (fun n c => n * 10 + (c.toNat - 48)) 0

/-- `true` iff `s` is a canonical array-index property name in the sense of
ECMAScript: the decimal representation, without leading zeros, of an integer
`0 ≤ n < 2^32 - 1`.  Such keys are enumerated before all other string keys. -/
def isArrayIndexKey (s : String) : Bool :=
  !s.toList.isEmpty &&
    s.toList.all Char.isDigit &&
    ((s.toList = ['0'] : Bool) || !(s.toList.head? = some '0' : Bool)) &&
    digitsToNat s.toList < 4294967295

/-- Numeric value of an array-index key (only meaningful when
`isArrayIndexKey` holds). -/
def arrayIndexVal (s : String) : Nat := digitsToNat s.toList

/-- Insert into a list sorted by the `Nat` component (insertion sort step);
used to reproduce the ascending enumeration of array-index keys. -/
def insertByIdx {α : Type} (x : Nat × α) : List (Nat × α) → List (Nat × α)
  | [] => [x]
  | y :: ys => if x.1 < y.1 then x :: y :: ys else y :: insertByIdx x ys

/-- Insertion sort by the `Nat` component. -/
def sortByIdx {α : Type} (l : List (Nat × α)) : List (Nat × α) :=
  l.foldr insertByIdx []

/-- The enumeration order of an object's own properties (as produced by
`Object.entries`, object spread, and `JSON.stringify`): array-index keys
first in ascending numeric order, then the remaining keys in insertion
order. -/
def jsOwnEntries {α : Type} (m : List (String × α)) : List (String × α) :=
  let idx := m.filterMap fun p =>
    if isArrayIndexKey p.1 then some (arrayIndexVal p.1, p) else none
  let rest := m.filter fun p => !isArrayIndexKey p.1
  (sortByIdx idx).map Prod.snd ++ rest

/-- Observation function (not part of the source): the value associated to
`name`, i.e. reading the object property `m[name]`. -/
def lookupName {α : Type} (m : List (String × α)) (name : String) : Option α :=
  match m with
  | [] => none
  | p :: rest => if p.1 = name then some p.2 else lookupName rest name

/-- Embeds `setFilterValue(name, value, isHidden = false, appliedInternally
= false)`: the functional update `{ ...prevFilters, [name]: { value,
isHidden, appliedInternally } }`.  A JavaScript spread with a computed key
keeps an existing key at its position and overwrites its value; a fresh key
is appended. -/
def setFilterValue (m : Filters) (name : String) (value : JsVal)
    (isHidden : Bool) (appliedInternally : Bool) : Filters :=
  if m.any fun p => p.1 = name then
    m.map fun p =>
      if p.1 = name then (name, ⟨value, isHidden, appliedInternally⟩) else p
  else
    m ++ [(name, ⟨value, isHidden, appliedInternally⟩)]

/-- Embeds `removeFilter(name)`: copy the object and `delete` the property
(`delete` on an absent property is a no-op). -/
def removeFilter (m : Filters) (name : String) : Filters :=
  m.filter fun p => !(p.1 = name : Bool)

/-- Embeds `clearFilters()`: the state is replaced by the empty object. -/
def clearFilters (_ : Filters) : Filters :=
  []

/-- `v === ""` (strict equality against the empty string). -/
def isEmptyString (v : JsVal) : Bool :=
  match v with
  | .str "" => true
  | _ => false

/-- `v === null`. -/
def isJsNull (v : JsVal) : Bool :=
  match v with
  | .null => true
  | _ => false

/-- `v === undefined`. -/
def isJsUndef (v : JsVal) : Bool :=
  match v with
  | .undef => true
  | _ => false

/-- `Array.isArray(v) && v.length === 0`. -/
def isEmptyJsArray (v : JsVal) : Bool :=
  match v with
  | .arr l => l.isEmpty
  | _ => false

/-- `Number.isNaN(v)`: `true` exactly for the number `NaN` (no coercion). -/
def numberIsNaN (v : JsVal) : Bool :=
  match v with
  | .num .nan => true
  | _ => false

/-- The applied-filter test of `getAppliedFilters`, exactly the source's
conjunction: `value !== "" && value !== null && value !== undefined &&
!(Array.isArray(value) && value.length === 0) && !Number.isNaN(value)`. -/
def appliedCheck (v : JsVal) : Bool :=
  !isEmptyString v && !isJsNull v && !isJsUndef v &&
    !isEmptyJsArray v && !numberIsNaN v

/-- Embeds `getAppliedFilters()`: iterate `Object.entries(filters)` and push
the `[key, filter.value]` pairs that pass `appliedCheck`. -/
def getAppliedFilters (filters : Filters) : List (String × JsVal) :=
  (jsOwnEntries filters).foldl
    (fun acc kf => if appliedCheck kf.2.value then acc ++ [(kf.1, kf.2.value)] else acc)
    []

/-- Decimal representation of a JavaScript number under `String(-)`:
`String(NaN) = "NaN"`, integers print in decimal. -/
def jsNumString (n : JsNum) : String :=
  match n with
  | .nan => "NaN"
  | .int i => toString i

mutual

/-- JavaScript string coercion `String(v)` for the values of this model.
Arrays coerce via `Array.prototype.join(",")`, where `null` and `undefined`
elements contribute the empty string. -/
def jsToString (v : JsVal) : String :=
  match v with
  | .str s => s
  | .num n => jsNumString n
  | .bool b => if b then "true" else "false"
  | .null => "null"
  | .undef => "undefined"
  | .arr l => jsJoin l

/-- `Array.prototype.join(",")` over the already-coerced elements. -/
def jsJoin (l : List JsVal) : String :=
  match l with
  | [] => ""
  | v :: rest =>
    let head :=
      match v with
      | .null => ""
      | .undef => ""
      | w => jsToString w
    match rest with
    | [] => head
    | _ :: _ => head ++ "," ++ jsJoin rest

end

/-- Uppercase hexadecimal digit. -/
def hexDigitChar (n : Nat) : Char :=
  if n < 10 then Char.ofNat (48 + n) else Char.ofNat (55 + n)

/-- UTF-8 encoding of one Unicode scalar value, as the list of byte
values. -/
def utf8Bytes (c : Char) : List Nat :=
  let n := c.toNat
  if n < 128 then [n]
  else if n < 2048 then [192 + n / 64, 128 + n % 64]
  else if n < 65536 then
    [224 + n / 4096, 128 + (n / 64) % 64, 128 + n % 64]
  else
    [240 + n / 262144, 128 + (n / 4096) % 64, 128 + (n / 64) % 64, 128 + n % 64]

/-- One byte under the `application/x-www-form-urlencoded` serializer used
by `URLSearchParams.toString()`: space becomes `+`, bytes in the unreserved
set (`A-Z a-z 0-9 * - . _`) stay themselves, everything else is
percent-encoded in uppercase hex. -/
def urlencodeByte (b : Nat) : String :=
  if b = 32 then "+"
  else if (48 ≤ b && b ≤ 57) || (65 ≤ b && b ≤ 90) || (97 ≤ b && b ≤ 122) ||
      b = 42 || b = 45 || b = 46 || b = 95 then
    String.singleton (Char.ofNat b)
  else
    "%" ++ String.singleton (hexDigitChar (b / 16)) ++
      String.singleton (hexDigitChar (b % 16))

/-- `application/x-www-form-urlencoded` encoding of a string (UTF-8 bytes,
then per-byte encoding). -/
def urlencode (s : String) : String :=
  String.join (((s.toList.map utf8Bytes).flatten).map urlencodeByte)

/-- `URLSearchParams.toString()` over the accumulated `(name, value)`
pairs: `name=value` joined with `&`, both sides urlencoded. -/
def urlSearchParamsToString (pairs : List (String × String)) : String :=
  String.intercalate "&" (pairs.map fun kv => urlencode kv.1 ++ "=" ++ urlencode kv.2)

/-- `Object.entries` applied to a JavaScript *array*: one entry per element,
keyed by the decimal index string, in index order.  (The source applies
`Object.entries` to the `appliedFilters` array.) -/
def jsArrayEntries (l : List JsVal) : List (String × JsVal) :=
  (l.enum).map fun p => (toString p.1, p.2)

/-- Embeds `getQueryString()` exactly as written in the source:

```
const appliedFilters = getAppliedFilters();
const queryParams = new URLSearchParams();
for (const [key, value] of Object.entries(appliedFilters)) {
  if (Array.isArray(value)) { for (const v of value) queryParams.append(key, v); }
  else if (typeof value === "object" && value !== null) { queryParams.append(key, JSON.stringify(value)); }
  else { queryParams.append(key, value); }
}
return queryParams.toString();
```

`appliedFilters` is an **array** of `[key, filter.value]` pairs, so
`Object.entries(appliedFilters)` yields `[indexString, pair]` entries: the
loop's `key` is the decimal index and its `value` is the two-element pair
array.  Each pair therefore always takes the `Array.isArray` branch; the
`JSON.stringify` branch is unreachable for this value domain (the only
non-array values with `typeof "object"` would be `null`, which the guard
excludes), and `queryParams.append` coerces its argument with `String(-)`. -/
def getQueryString (filters : Filters) : String :=
  let appliedFilters :=
    (getAppliedFilters filters).map fun kv => JsVal.arr [JsVal.str kv.1, kv.2]
  let pairs :=
    (jsArrayEntries appliedFilters).foldl
      (fun acc kv =>
        match kv.2 with
        | .arr l => acc ++ l.map fun x => (kv.1, jsToString x)
        | v => acc ++ [(kv.1, jsToString v)])
      []
  urlSearchParamsToString pairs

/-!
## Persistence: `JSON.parse` / `JSON.stringify` and store initialization

The store initializer reads `localStorage.getItem(filtersStoredAs ||
"filters")` and runs `storedFilters ? JSON.parse(storedFilters) : {}` with
no `try`/`catch`.  `JSON.parse` is embedded as a recursive-descent parser of
the JSON grammar (fuel-based; the fuel is always sufficient since every
recursion step consumes input).  Numeric lexemes are kept as text: the code
never computes with parsed numbers, so their float value is irrelevant
here. -/

/-- A parsed JSON document.  Number lexemes are kept verbatim (`num`); the
subsystem never computes with them. -/
inductive Json where
  | null
  | bool (b : Bool)
  | num (lexeme : String)
  | str (s : String)
  | arr (elems : List Json)
  | obj (members : List (String × Json))

/-- JSON insignificant whitespace. -/
def skipWs (cs : List Char) : List Char :=
  cs.dropWhile fun c => c = ' ' || c = '\t' || c = '\n' || c = '\r'

/-- Value of a hexadecimal digit. -/
def hexVal (c : Char) : Option Nat :=
  if '0' ≤ c && c ≤ '9' then some (c.toNat - 48)
  else if 'A' ≤ c && c ≤ 'F' then some (c.toNat - 55)
  else if 'a' ≤ c && c ≤ 'f' then some (c.toNat - 87)
  else none

/-- Translation of a single-character JSON escape. -/
def escChar (c : Char) : Option Char :=
  match c with
  | '"' => some '"'
  | '\\' => some '\\'
  | '/' => some '/'
  | 'b' => some (Char.ofNat 8)
  | 'f' => some (Char.ofNat 12)
  | 'n' => some '\n'
  | 'r' => some '\r'
  | 't' => some '\t'
  | _ => none

/-- Parse the remainder of a JSON string literal (the opening quote already
consumed); returns the decoded string and the rest of the input.  Fails on
unescaped control characters and invalid escapes, as `JSON.parse` does. -/
def jpStringRest : List Char → Option (String × List Char)
  | [] => none
  | '"' :: rest => some ("", rest)
  | '\\' :: 'u' :: h1 :: h2 :: h3 :: h4 :: rest => do
    let a ← hexVal h1
    let b ← hexVal h2
    let c ← hexVal h3
    let d ← hexVal h4
    let (s, r) ← jpStringRest rest
    some (String.singleton (Char.ofNat (((a * 16 + b) * 16 + c) * 16 + d)) ++ s, r)
  | '\\' :: c :: rest => do
    let ec ← escChar c
    let (s, r) ← jpStringRest rest
    some (String.singleton ec ++ s, r)
  | c :: rest =>
    if c = '\\' || c.toNat < 32 then none
    else do
      let (s, r) ← jpStringRest rest
      some (String.singleton c ++ s, r)

/-- Lex one or more decimal digits. -/
def lexDigits (cs : List Char) : Option (List Char × List Char) :=
  let ds := cs.takeWhile Char.isDigit
  if ds.isEmpty then none else some (ds, cs.drop ds.length)

/-- Lex a JSON number; returns the lexeme and the rest of the input. -/
def jpNumber (cs : List Char) : Option (String × List Char) := do
  let (sign, cs1) :=
    match cs with
    | '-' :: r => (['-'], r)
    | _ => (([] : List Char), cs)
  let (ip, cs2) ← lexDigits cs1
  if 1 < ip.length && ip.head? = some '0' then none
  else do
    let (fp, cs3) ←
      match cs2 with
      | '.' :: r => do
        let (ds, r') ← lexDigits r
        pure ('.' :: ds, r')
      | _ => pure (([] : List Char), cs2)
    let (ep, cs4) ←
      match cs3 with
      | e :: r =>
        if e = 'e' || e = 'E' then do
          let (sgn, r1) :=
            match r with
            | '+' :: r' => (['+'], r')
            | '-' :: r' => (['-'], r')
            | _ => (([] : List Char), r)
          let (ds, r2) ← lexDigits r1
          pure (e :: (sgn ++ ds), r2)
        else pure (([] : List Char), e :: r)
      | [] => pure (([] : List Char), ([] : List Char))
    pure (String.mk (sign ++ ip ++ fp ++ ep), cs4)

mutual

/-- Parse one JSON value. -/
def jpValue (fuel : Nat) (cs : List Char) : Option (Json × List Char) :=
  match fuel with
  | 0 => none
  | fuel + 1 =>
    match skipWs cs with
    | '{' :: rest =>
      (match skipWs rest with
       | '}' :: r => some (.obj [], r)
       | rest' => jpMembers fuel rest' [])
    | '[' :: rest =>
      (match skipWs rest with
       | ']' :: r => some (.arr [], r)
       | rest' => jpElements fuel rest' [])
    | '"' :: rest => (jpStringRest rest).map fun p => (.str p.1, p.2)
    | 't' :: 'r' :: 'u' :: 'e' :: r => some (.bool true, r)
    | 'f' :: 'a' :: 'l' :: 's' :: 'e' :: r => some (.bool false, r)
    | 'n' :: 'u' :: 'l' :: 'l' :: r => some (.null, r)
    | other => (jpNumber other).map fun p => (.num p.1, p.2)

/-- Parse the elements of a non-empty JSON array. -/
def jpElements (fuel : Nat) (cs : List Char) (acc : List Json) :
    Option (Json × List Char) :=
  match fuel with
  | 0 => none
  | fuel + 1 => do
    let (v, cs1) ← jpValue fuel cs
    match skipWs cs1 with
    | ',' :: r => jpElements fuel r (acc ++ [v])
    | ']' :: r => some (.arr (acc ++ [v]), r)
    | _ => none

/-- Parse the members of a non-empty JSON object. -/
def jpMembers (fuel : Nat) (cs : List Char) (acc : List (String × Json)) :
    Option (Json × List Char) :=
  match fuel with
  | 0 => none
  | fuel + 1 =>
    match skipWs cs with
    | '"' :: rest => do
      let (k, cs1) ← jpStringRest rest
      match skipWs cs1 with
      | ':' :: r => do
        let (v, cs2) ← jpValue fuel r
        match skipWs cs2 with
        | ',' :: r2 => jpMembers fuel r2 (acc ++ [(k, v)])
        | '}' :: r2 => some (.obj (acc ++ [(k, v)]), r2)
        | _ => none
      | _ => none
    | _ => none

end

/-- `JSON.parse(s)`: succeeds on a single JSON document (with optional
surrounding whitespace), otherwise raises a `SyntaxError`, embedded as
`Except.error`. -/
def jsonParse (s : String) : Except String Json :=
  match jpValue (s.length + 2) s.toList with
  | some (v, rest) =>
    if (skipWs rest).isEmpty then .ok v
    else .error "SyntaxError: unexpected trailing input"
  | none => .error "SyntaxError: invalid JSON"

/-- `true` iff the computation did not raise. -/
def noThrow {ε α : Type} (e : Except ε α) : Bool :=
  match e with
  | .ok _ => true
  | .error _ => false

/-- Embeds the store's state initializer:

```
const storedFilters = localStorage.getItem(filtersStoredAs || "filters");
return storedFilters ? JSON.parse(storedFilters) : {};
```

`stored` is what `localStorage.getItem` returned for the namespace key
(`none` = the key is absent, i.e. `null`).  `storedFilters ? _ : _` takes
the `{}` branch for `null` and for the empty string (both falsy).  There is
no `try`/`catch`: a `JSON.parse` failure propagates out of the initializer.
The parsed value is used as the mapping without any shape validation. -/
def initFilters (stored : Option String) : Except String Json :=
  match stored with
  | none => .ok (Json.obj [])
  | some s => if s = "" then .ok (Json.obj []) else jsonParse s

mutual

/-- `JSON.parse ∘ JSON.stringify` on a JavaScript value sitting at an array
element position: `NaN` (and `Infinity`) serialize as `null`, `undefined`
array elements serialize as `null`, everything else in this value domain
round-trips. -/
def jsonRoundElem (v : JsVal) : JsVal :=
  match v with
  | .str s => .str s
  | .num .nan => .null
  | .num (.int n) => .num (.int n)
  | .bool b => .bool b
  | .null => .null
  | .undef => .null
  | .arr l => .arr (jsonRoundElems l)

/-- Elementwise `jsonRoundElem`. -/
def jsonRoundElems (l : List JsVal) : List JsVal :=
  match l with
  | [] => []
  | v :: vs => jsonRoundElem v :: jsonRoundElems vs

end

/-- `JSON.parse ∘ JSON.stringify` on a value sitting at an object property
position.  As for array elements, except that an `undefined` property is
dropped by `JSON.stringify`, and reading the dropped property after
`JSON.parse` yields `undefined` again. -/
def jsonRoundProp (v : JsVal) : JsVal :=
  match v with
  | .str s => .str s
  | .num .nan => .null
  | .num (.int n) => .num (.int n)
  | .bool b => .bool b
  | .null => .null
  | .undef => .undef
  | .arr l => .arr (jsonRoundElems l)

/-- The persistence round trip of the store: the effect
`localStorage.setItem(key, JSON.stringify(filters))` followed by a fresh
store initialization `JSON.parse(storedFilters)`.  `JSON.stringify` writes
the object's own properties in `jsOwnEntries` order with each
`FilterValue`'s three fields (`isHidden` / `appliedInternally` are booleans
and round-trip; `value` round-trips per `jsonRoundProp`), and `JSON.parse`
rebuilds the object in text order. -/
def persistedRoundTrip (m : Filters) : Filters :=
  (jsOwnEntries m).map fun p =>
    (p.1,
      { value := jsonRoundProp p.2.value
        isHidden := p.2.isHidden
        appliedInternally := p.2.appliedInternally })

/-!
## The `FiltersSheet` controller

The sheet submits through `react-hook-form`'s `handleSubmit(onSubmit)` with
a `zodResolver(filtersSchema)`.  The schema is an external collaborator: it
is embedded as an arbitrary function from the ephemeral form values to
either field-scoped errors or validated data.  `handleSubmit` runs the
resolver; on failure it records the per-field errors in `formState.errors`
and does not invoke `onSubmit`; on success it invokes `onSubmit(data)`,
which runs `setFilterValue(key, value)` for every entry of
`Object.entries(data)` (the optional `isHidden` / `appliedInternally`
arguments are omitted, so they default to `false`), then `onApply(data)`,
then `onClose()`. -/

/-- Ephemeral form values: a JavaScript object of field name → value. -/
abbrev FormData := List (String × JsVal)

/-- Field-scoped validation errors, field name → message. -/
abbrev FieldErrors := List (String × String)

/-- The external schema validator behind `zodResolver`. -/
abbrev FormValidator := FormData → Except FieldErrors FormData

/-- Externally observable calls the controller makes. -/
inductive SheetEvent where
  | setValueCall (name : String) (value : JsVal)
  | applyNotified (data : FormData)
  | closeNotified
  | clearNotified

/-- Controller-visible state: whether the sheet is open, the backing
filter store, the surfaced per-field errors, and the trace of outward
calls. -/
structure SheetState where
  sheetOpen : Bool
  store : Filters
  fieldErrors : FieldErrors
  events : List SheetEvent

/-- Embeds pressing "Apply Filters": `handleSubmit(onSubmit)` applied to
the current form values.

* resolver failure: `formState.errors` receives the field errors; nothing
  else changes (no `setFilterValue`, no `onApply`, no `onClose`; the sheet
  stays as it is);
* resolver success: `onSubmit(data)` runs — `setFilterValue(key, value)`
  for each entry of `Object.entries(data)`, then `onApply(data)`, then
  `onClose()` (which closes the sheet), and the error state is empty. -/
def submitFilters (validate : FormValidator) (st : SheetState) (form : FormData) :
    SheetState :=
  match validate form with
  | .error errs => { st with fieldErrors := errs }
  | .ok data =>
    let entries := jsOwnEntries data
    { sheetOpen := false
      store := entries.foldl (fun s kv => setFilterValue s kv.1 kv.2 false false) st.store
      fieldErrors := []
      events := st.events ++ (entries.map fun kv => SheetEvent.setValueCall kv.1 kv.2)
          ++ [SheetEvent.applyNotified data, SheetEvent.closeNotified] }

/-!
## Spec-side definitions (for refinement statements only)

These are written from the specification's words, not from the source; the
theorems below compare them with the embedded source functions. -/

/-- The spec's "applied" predicate, stated per variant: the value is not the
empty string, not null, not undefined, not an empty sequence, and — for
numeric values only — not `NaN`. -/
def appliedSpecPred (v : JsVal) : Bool :=
  match v with
  | .str s => !(s = "" : Bool)
  | .null => false
  | .undef => false
  | .arr l => !l.isEmpty
  | .num .nan => false
  | .num (.int _) => true
  | .bool _ => true

/-- The spec's description of `getAppliedFilters()`: the `(name, value)`
pairs of the current mapping whose value satisfies the applied predicate,
in the mapping's order. -/
def specAppliedFilters (m : Filters) : List (String × JsVal) :=
  m.filterMap fun p =>
    if appliedSpecPred p.2.value then some (p.1, p.2.value) else none

/-!
## Operation sequences -/

/-- One mutation of the store. -/
inductive FilterOp where
  | set (name : String) (value : JsVal) (isHidden : Bool) (appliedInternally : Bool)
  | remove (name : String)
  | clear

/-- Apply one mutation. -/
def applyFilterOp (m : Filters) : FilterOp → Filters
  | .set n v h a => setFilterValue m n v h a
  | .remove n => removeFilter m n
  | .clear => clearFilters m

/-- Run a sequence of mutations on the initially empty store. -/
def runFilterOps (ops : List FilterOp) : Filters :=
  ops.foldl applyFilterOp []

/-- Written from the TypeScript type of `FilterValue.value`:
`string | string[] | number | boolean`. -/
def isTSValue (v : JsVal) : Bool :=
  match v with
  | .str _ => true
  | .bool _ => true
  | .num _ => true
  | .arr l => l.all fun x =>
      match x with
      | .str _ => true
      | _ => false
  | _ => false

/-!
## Helper lemmas -/

theorem lookupName_map_replace_ne (m : Filters) (n k : String) (e : FilterValue)
    (hk : k ≠ n) :
    lookupName (m.map fun p => if p.1 = n then (n, e) else p) k = lookupName m k := by
  induction m with
  | nil => rfl
  | cons p rest ih =>
    by_cases hp : p.1 = n
    · have h1 : ¬(n = k) := fun hnk => hk hnk.symm
      have h2 : ¬(p.1 = k) := by rw [hp]; exact h1
      simp only [List.map_cons, if_pos hp, lookupName, if_neg h1, if_neg h2]
      exact ih
    · simp only [List.map_cons, if_neg hp, lookupName]
      by_cases hpk : p.1 = k
      · rw [if_pos hpk, if_pos hpk]
      · rw [if_neg hpk, if_neg hpk]
        exact ih

theorem lookupName_map_replace_self (m : Filters) (n : String) (e : FilterValue)
    (hc : m.any (fun p => (p.1 = n : Bool)) = true) :
    lookupName (m.map fun p => if p.1 = n then (n, e) else p) n = some e := by
  induction m with
  | nil => simp at hc
  | cons p rest ih =>
    by_cases hp : p.1 = n
    · simp [lookupName, hp]
    · simp only [List.any_cons, Bool.or_eq_true, decide_eq_true_eq] at hc
      rcases hc with hc | hc
      · exact absurd hc hp
      · simp only [List.map_cons, if_neg hp, lookupName, if_neg hp]
        exact ih (by simpa using hc)

theorem lookupName_append_right (m : Filters) (tail : Filters) (n : String)
    (hc : m.any (fun p => (p.1 = n : Bool)) = false) :
    lookupName (m ++ tail) n = lookupName tail n := by
  induction m with
  | nil => rfl
  | cons p rest ih =>
    simp only [List.any_cons, Bool.or_eq_false_iff, decide_eq_false_iff_not] at hc
    simp only [List.cons_append, lookupName, if_neg hc.1]
    exact ih (by simp [hc.2])

/-- Reading back the name just written: `setFilterValue` overwrites. -/
theorem lookupName_setFilterValue_self (m : Filters) (n : String) (v : JsVal)
    (hid ai : Bool) :
    lookupName (setFilterValue m n v hid ai) n = some ⟨v, hid, ai⟩ := by
  unfold setFilterValue
  by_cases hc : m.any (fun p => (p.1 = n : Bool)) = true
  · rw [if_pos hc]
    exact lookupName_map_replace_self m n _ hc
  · rw [if_neg hc]
    rw [lookupName_append_right m _ n (by revert hc; cases m.any fun p => (p.1 = n : Bool) <;> simp)]
    simp [lookupName]

/-- `setFilterValue` does not touch other names. -/
theorem lookupName_setFilterValue_ne (m : Filters) (n k : String) (v : JsVal)
    (hid ai : Bool) (hk : k ≠ n) :
    lookupName (setFilterValue m n v hid ai) k = lookupName m k := by
  unfold setFilterValue
  by_cases hc : m.any (fun p => (p.1 = n : Bool)) = true
  · rw [if_pos hc]
    exact lookupName_map_replace_ne m n k _ hk
  · rw [if_neg hc]
    induction m with
    | nil =>
      have h1 : ¬(n = k) := fun hnk => hk hnk.symm
      simp only [List.nil_append, lookupName, if_neg h1]
    | cons p rest ih =>
      simp only [List.cons_append, lookupName]
      by_cases hpk : p.1 = k
      · rw [if_pos hpk, if_pos hpk]
      · rw [if_neg hpk, if_neg hpk]
        exact ih (by
          intro habs
          exact hc (by simp only [List.any_cons, habs, Bool.or_true]))

/-- The removed name reads back as absent. -/
theorem lookupName_removeFilter_self (m : Filters) (n : String) :
    lookupName (removeFilter m n) n = none := by
  induction m with
  | nil => rfl
  | cons p rest ih =>
    unfold removeFilter at ih ⊢
    simp only [List.filter_cons]
    by_cases hp : p.1 = n
    · have hcond : (!(decide (p.1 = n))) = false := by simp [hp]
      rw [hcond]
      simp only [Bool.false_eq_true, if_false]
      exact ih
    · have hcond : (!(decide (p.1 = n))) = true := by simp [hp]
      rw [hcond, if_pos rfl]
      simp only [lookupName, if_neg hp]
      exact ih

/-- `removeFilter` does not touch other names. -/
theorem lookupName_removeFilter_ne (m : Filters) (n k : String) (hk : k ≠ n) :
    lookupName (removeFilter m n) k = lookupName m k := by
  induction m with
  | nil => rfl
  | cons p rest ih =>
    unfold removeFilter at ih ⊢
    simp only [List.filter_cons]
    by_cases hp : p.1 = n
    · have hpk : ¬(p.1 = k) := by rw [hp]; exact fun hnk => hk hnk.symm
      have hcond : (!(decide (p.1 = n))) = false := by simp [hp]
      rw [hcond]
      simp only [Bool.false_eq_true, if_false, lookupName, if_neg hpk]
      rw [ih]
    · have hcond : (!(decide (p.1 = n))) = true := by simp [hp]
      rw [hcond, if_pos rfl]
      simp only [lookupName]
      by_cases hpk : p.1 = k
      · rw [if_pos hpk, if_pos hpk]
      · rw [if_neg hpk, if_neg hpk]
        exact ih

/-- Removing an absent name is the identity. -/
theorem removeFilter_of_absent (m : Filters) (n : String)
    (h : lookupName m n = none) : removeFilter m n = m := by
  induction m with
  | nil => rfl
  | cons p rest ih =>
    unfold removeFilter at ih ⊢
    simp only [lookupName] at h
    by_cases hp : p.1 = n
    · rw [if_pos hp] at h
      cases h
    · rw [if_neg hp] at h
      have hcond : (!(decide (p.1 = n))) = true := by simp [hp]
      simp only [List.filter_cons]
      rw [hcond, if_pos rfl, ih h]

theorem keys_map_replace (m : Filters) (n : String) (e : FilterValue) :
    ((m.map fun p => if p.1 = n then (n, e) else p).map Prod.fst) = m.map Prod.fst := by
  induction m with
  | nil => rfl
  | cons p rest ih =>
    by_cases hp : p.1 = n
    · simp only [List.map_cons, if_pos hp, ih]
      rw [hp]
    · simp only [List.map_cons, if_neg hp, ih]

theorem any_key_map_replace (m : Filters) (n : String) (e : FilterValue)
    (hc : m.any (fun p => (p.1 = n : Bool)) = true) :
    ((m.map fun p => if p.1 = n then (n, e) else p).any fun p => (p.1 = n : Bool)) = true := by
  induction m with
  | nil => simp at hc
  | cons p rest ih =>
    by_cases hp : p.1 = n
    · simp [if_pos hp]
    · simp only [List.any_cons, Bool.or_eq_true, decide_eq_true_eq] at hc
      rcases hc with hc | hc
      · exact absurd hc hp
      · simp only [List.map_cons, if_neg hp, List.any_cons, ih (by simpa using hc),
          Bool.or_true]

theorem map_replace_idem (m : Filters) (n : String) (e : FilterValue) :
    ((m.map fun p => if p.1 = n then (n, e) else p).map
        fun p => if p.1 = n then (n, e) else p) =
      m.map fun p => if p.1 = n then (n, e) else p := by
  induction m with
  | nil => rfl
  | cons p rest ih =>
    by_cases hp : p.1 = n
    · simp only [List.map_cons, if_pos hp, ih]
      simp
    · simp only [List.map_cons, if_neg hp, ih]

theorem map_replace_of_not_any (m : Filters) (n : String) (e : FilterValue)
    (hc : m.any (fun p => (p.1 = n : Bool)) = false) :
    (m.map fun p => if p.1 = n then (n, e) else p) = m := by
  induction m with
  | nil => rfl
  | cons p rest ih =>
    simp only [List.any_cons, Bool.or_eq_false_iff, decide_eq_false_iff_not] at hc
    simp only [List.map_cons, if_neg hc.1]
    rw [ih (by simp [hc.2])]

/-- Overwriting a name twice with the same arguments equals overwriting it
once. -/
theorem setFilterValue_idem (m : Filters) (n : String) (v : JsVal) (hid ai : Bool) :
    setFilterValue (setFilterValue m n v hid ai) n v hid ai =
      setFilterValue m n v hid ai := by
  by_cases hc : m.any (fun p => (p.1 = n : Bool)) = true
  · have h1 : setFilterValue m n v hid ai =
        m.map fun p => if p.1 = n then (n, ⟨v, hid, ai⟩) else p := by
      unfold setFilterValue
      rw [if_pos hc]
    rw [h1]
    unfold setFilterValue
    rw [if_pos (any_key_map_replace m n _ hc)]
    exact map_replace_idem m n _
  · have hc' : m.any (fun p => (p.1 = n : Bool)) = false := by
      revert hc; cases m.any fun p => (p.1 = n : Bool) <;> simp
    have h1 : setFilterValue m n v hid ai = m ++ [(n, ⟨v, hid, ai⟩)] := by
      unfold setFilterValue
      rw [if_neg hc]
    rw [h1]
    unfold setFilterValue
    rw [if_pos (by simp [List.any_append])]
    rw [List.map_append, map_replace_of_not_any m n _ hc']
    simp

/-- Removing a name twice equals removing it once. -/
theorem removeFilter_idem (m : Filters) (n : String) :
    removeFilter (removeFilter m n) n = removeFilter m n :=
  removeFilter_of_absent _ _ (lookupName_removeFilter_self m n)

/-- `setFilterValue` preserves key uniqueness. -/
theorem keys_nodup_setFilterValue (m : Filters) (n : String) (v : JsVal)
    (hid ai : Bool) (hm : (m.map Prod.fst).Nodup) :
    ((setFilterValue m n v hid ai).map Prod.fst).Nodup := by
  unfold setFilterValue
  by_cases hc : m.any (fun p => (p.1 = n : Bool)) = true
  · rw [if_pos hc, keys_map_replace]
    exact hm
  · rw [if_neg hc, List.map_append]
    have hnotmem : ∀ p ∈ m, ¬(p.1 = n) := by
      intro p hp habs
      exact hc (by simp only [List.any_eq_true, decide_eq_true_eq]; exact ⟨p, hp, habs⟩)
    refine List.Nodup.append hm (by simp) ?_
    intro x hx hx2
    simp only [List.map_cons, List.map_nil, List.mem_singleton] at hx2
    rcases List.mem_map.mp hx with ⟨p, hp, hpx⟩
    exact hnotmem p hp (by rw [hpx, hx2])

/-- `removeFilter` preserves key uniqueness. -/
theorem keys_nodup_removeFilter (m : Filters) (n : String)
    (hm : (m.map Prod.fst).Nodup) :
    ((removeFilter m n).map Prod.fst).Nodup :=
  hm.sublist (List.Sublist.map Prod.fst (List.filter_sublist m))

/-- Every store reachable by a sequence of mutations has unique keys. -/
theorem keys_nodup_runFilterOps (ops : List FilterOp) :
    ((runFilterOps ops).map Prod.fst).Nodup := by
  have main : ∀ (l : List FilterOp) (m : Filters), (m.map Prod.fst).Nodup →
      ((l.foldl applyFilterOp m).map Prod.fst).Nodup := by
    intro l
    induction l with
    | nil => intro m hm; exact hm
    | cons op rest ih =>
      intro m hm
      refine ih (applyFilterOp m op) ?_
      cases op with
      | set n v h a => exact keys_nodup_setFilterValue m n v h a hm
      | remove n => exact keys_nodup_removeFilter m n hm
      | clear => simp [applyFilterOp, clearFilters]
  exact main ops [] (by simp)

theorem insertByIdx_perm {α : Type} (x : Nat × α) (l : List (Nat × α)) :
    (insertByIdx x l).Perm (x :: l) := by
  induction l with
  | nil => exact List.Perm.refl _
  | cons y ys ih =>
    unfold insertByIdx
    by_cases h : x.1 < y.1
    · rw [if_pos h]
    · rw [if_neg h]
      exact (ih.cons y).trans (List.Perm.swap x y ys)

theorem sortByIdx_perm {α : Type} (l : List (Nat × α)) : (sortByIdx l).Perm l := by
  induction l with
  | nil => exact List.Perm.refl _
  | cons x xs ih =>
    exact (insertByIdx_perm x (sortByIdx xs)).trans (ih.cons x)

theorem filterMap_idx_map_snd {α : Type} (m : List (String × α)) :
    ((m.filterMap fun p =>
        if isArrayIndexKey p.1 then some (arrayIndexVal p.1, p) else none).map
      Prod.snd) = m.filter fun p => isArrayIndexKey p.1 := by
  induction m with
  | nil => rfl
  | cons p rest ih =>
    by_cases hp : isArrayIndexKey p.1
    · simp [List.filterMap_cons, List.filter_cons, hp, ih]
    · simp only [List.filterMap_cons, List.filter_cons]
      rw [if_neg hp]
      simp only [Bool.not_eq_true] at hp
      simp [hp, ih]

/-- JavaScript property enumeration is a permutation of the insertion
list. -/
theorem jsOwnEntries_perm {α : Type} (m : List (String × α)) :
    (jsOwnEntries m).Perm m := by
  unfold jsOwnEntries
  have h1 := (sortByIdx_perm (m.filterMap fun p =>
    if isArrayIndexKey p.1 then some (arrayIndexVal p.1, p) else none)).map Prod.snd
  rw [filterMap_idx_map_snd] at h1
  refine (h1.append_right _).trans ?_
  exact List.filter_append_perm _ m

/-- When no key is an array index, enumeration order is insertion order. -/
theorem jsOwnEntries_of_no_index {α : Type} (m : List (String × α))
    (h : ∀ p ∈ m, isArrayIndexKey p.1 = false) : jsOwnEntries m = m := by
  unfold jsOwnEntries
  have hidx : (m.filterMap fun p =>
      if isArrayIndexKey p.1 then some (arrayIndexVal p.1, p) else none) = [] := by
    rw [List.filterMap_eq_nil_iff]
    intro p hp
    rw [if_neg (by rw [h p hp]; exact fun habs => Bool.false_ne_true habs)]
  rw [hidx]
  show [] ++ _ = m
  rw [List.nil_append, List.filter_eq_self.mpr]
  intro p hp
  rw [h p hp]
  rfl

/-- Reading a property is invariant under permutation when keys are
unique. -/
theorem lookupName_eq_of_perm {α : Type} {l₁ l₂ : List (String × α)}
    (hp : l₁.Perm l₂) :
    (l₁.map Prod.fst).Nodup → ∀ k, lookupName l₁ k = lookupName l₂ k := by
  induction hp with
  | nil => intro _ k; rfl
  | cons x hxs ih =>
    intro hnd k
    simp only [List.map_cons, List.nodup_cons] at hnd
    simp only [lookupName]
    by_cases hx : x.1 = k
    · rw [if_pos hx, if_pos hx]
    · rw [if_neg hx, if_neg hx]
      exact ih hnd.2 k
  | swap x y l =>
    intro hnd k
    simp only [List.map_cons, List.nodup_cons, List.mem_cons] at hnd
    have hyx : ¬(y.1 = x.1) := fun habs => hnd.1 (Or.inl habs)
    simp only [lookupName]
    by_cases hy : y.1 = k
    · have hxk : ¬(x.1 = k) := fun habs => hyx (hy.trans habs.symm)
      rw [if_pos hy, if_neg hxk, if_pos hy]
    · rw [if_neg hy]
      by_cases hx : x.1 = k
      · rw [if_pos hx, if_pos hx]
      · rw [if_neg hx, if_neg hx, if_neg hy]
  | trans h12 h23 ih1 ih2 =>
    intro hnd k
    rw [ih1 hnd k]
    exact ih2 ((h12.map Prod.fst).nodup hnd) k

/-- The source's applied test and the spec's per-variant wording agree on
every value. -/
theorem appliedCheck_eq_spec (v : JsVal) : appliedCheck v = appliedSpecPred v := by
  cases v with
  | str s =>
    by_cases hs : s = "" <;>
      simp [appliedCheck, appliedSpecPred, isEmptyString, isJsNull, isJsUndef,
        isEmptyJsArray, numberIsNaN, hs]
  | num n =>
    cases n <;>
      simp [appliedCheck, appliedSpecPred, isEmptyString, isJsNull, isJsUndef,
        isEmptyJsArray, numberIsNaN]
  | bool b =>
    simp [appliedCheck, appliedSpecPred, isEmptyString, isJsNull, isJsUndef,
      isEmptyJsArray, numberIsNaN]
  | null =>
    simp [appliedCheck, appliedSpecPred, isEmptyString, isJsNull, isJsUndef,
      isEmptyJsArray, numberIsNaN]
  | undef =>
    simp [appliedCheck, appliedSpecPred, isEmptyString, isJsNull, isJsUndef,
      isEmptyJsArray, numberIsNaN]
  | arr l =>
    cases l <;>
      simp [appliedCheck, appliedSpecPred, isEmptyString, isJsNull, isJsUndef,
        isEmptyJsArray, numberIsNaN]

theorem foldl_push_applied :
    ∀ (l : List (String × FilterValue)) (acc : List (String × JsVal)),
      l.foldl
          (fun acc kf =>
            if appliedCheck kf.2.value then acc ++ [(kf.1, kf.2.value)] else acc)
          acc =
        acc ++ l.filterMap fun p =>
          if appliedCheck p.2.value then some (p.1, p.2.value) else none := by
  intro l
  induction l with
  | nil => intro acc; simp
  | cons x rest ih =>
    intro acc
    by_cases hx : appliedCheck x.2.value = true
    · rw [List.foldl_cons, if_pos hx,
        List.filterMap_cons_some (by rw [if_pos hx]), ih]
      simp
    · rw [List.foldl_cons, if_neg hx,
        List.filterMap_cons_none (by rw [if_neg hx])]
      exact ih acc

/-- `getAppliedFilters` as a filter of the enumerated mapping. -/
theorem getAppliedFilters_eq_filterMap (m : Filters) :
    getAppliedFilters m =
      (jsOwnEntries m).filterMap fun p =>
        if appliedCheck p.2.value then some (p.1, p.2.value) else none := by
  unfold getAppliedFilters
  rw [foldl_push_applied]
  rfl

theorem lookupName_foldl_set_not_mem (l : FormData) (m : Filters) (k : String)
    (hk : ¬(k ∈ l.map Prod.fst)) :
    lookupName (l.foldl (fun s kv => setFilterValue s kv.1 kv.2 false false) m) k =
      lookupName m k := by
  induction l generalizing m with
  | nil => rfl
  | cons kv rest ih =>
    simp only [List.map_cons, List.mem_cons] at hk
    rw [List.foldl_cons, ih _ fun habs => hk (Or.inr habs)]
    exact lookupName_setFilterValue_ne m kv.1 k kv.2 false false
      fun habs => hk (Or.inl habs)

/-- After folding `setFilterValue (key, value)` over form entries with
unique keys, each submitted key reads back as its submitted value with both
flags `false`. -/
theorem lookupName_foldl_set (l : FormData) (m : Filters) (k : String) (v : JsVal)
    (hnd : (l.map Prod.fst).Nodup) (hmem : (k, v) ∈ l) :
    lookupName (l.foldl (fun s kv => setFilterValue s kv.1 kv.2 false false) m) k =
      some ⟨v, false, false⟩ := by
  induction l generalizing m with
  | nil => cases hmem
  | cons kv rest ih =>
    simp only [List.map_cons, List.nodup_cons] at hnd
    rcases List.mem_cons.mp hmem with hhead | htail
    · subst hhead
      rw [List.foldl_cons, lookupName_foldl_set_not_mem rest _ k hnd.1]
      exact lookupName_setFilterValue_self m k v false false
    · rw [List.foldl_cons]
      exact ih _ hnd.2 htail

theorem jsonRoundElems_of_all_str (l : List JsVal)
    (h : (l.all fun x =>
      match x with
      | .str _ => true
      | _ => false) = true) :
    jsonRoundElems l = l := by
  induction l with
  | nil => rfl
  | cons x rest ih =>
    simp only [List.all_cons, Bool.and_eq_true] at h
    cases x with
    | str s =>
      unfold jsonRoundElems jsonRoundElem
      rw [ih h.2]
    | num n => cases h.1
    | bool b => cases h.1
    | null => cases h.1
    | undef => cases h.1
    | arr l2 => cases h.1

/-- On well-typed, non-`NaN` values, the persistence round trip is the
identity. -/
theorem jsonRoundProp_of_ts (v : JsVal) (hts : isTSValue v = true)
    (hnan : numberIsNaN v = false) : jsonRoundProp v = v := by
  cases v with
  | str s => rfl
  | bool b => rfl
  | num n =>
    cases n with
    | nan => cases hnan
    | int i => rfl
  | null => cases hts
  | undef => cases hts
  | arr l =>
    simp only [jsonRoundProp]
    rw [jsonRoundElems_of_all_str l (by simpa [isTSValue] using hts)]

/-- On well-typed, `NaN`-free stores, persisting and re-reading reproduces
the enumerated mapping entry for entry. -/
theorem persistedRoundTrip_eq_jsOwnEntries (m : Filters)
    (hts : ∀ p ∈ m, isTSValue p.2.value = true ∧ numberIsNaN p.2.value = false) :
    persistedRoundTrip m = jsOwnEntries m := by
  unfold persistedRoundTrip
  have hid : ∀ p ∈ jsOwnEntries m,
      (p.1,
        ({ value := jsonRoundProp p.2.value
           isHidden := p.2.isHidden
           appliedInternally := p.2.appliedInternally } : FilterValue)) = id p := by
    intro p hp
    have hpm := (jsOwnEntries_perm m).mem_iff.mp hp
    obtain ⟨h1, h2⟩ := hts p hpm
    rw [jsonRoundProp_of_ts _ h1 h2]
    rfl
  rw [List.map_congr_left hid, List.map_id]

/-- Membership with the freshly written key pins down the whole entry. -/
theorem mem_setFilterValue_key (m : Filters) (n : String) (v : JsVal)
    (hid ai : Bool) (p : String × FilterValue)
    (hp : p ∈ setFilterValue m n v hid ai) (hk : p.1 = n) :
    p = (n, ⟨v, hid, ai⟩) := by
  unfold setFilterValue at hp
  by_cases hc : m.any (fun q => (q.1 = n : Bool)) = true
  · rw [if_pos hc] at hp
    rcases List.mem_map.mp hp with ⟨q, _, hq⟩
    by_cases hqn : q.1 = n
    · rw [if_pos hqn] at hq
      exact hq.symm
    · rw [if_neg hqn] at hq
      rw [← hq] at hk
      exact absurd hk hqn
  · rw [if_neg hc] at hp
    rcases List.mem_append.mp hp with hin | hin
    · exfalso
      refine hc ?_
      simp only [List.any_eq_true, decide_eq_true_eq]
      exact ⟨p, hin, hk⟩
    · simpa using hin

/-!
## Claim theorems -/

/-- **C1** — The claim states that `getQueryString()` serializes the pairs of
`getAppliedFilters()` under their filter names: a scalar value yields
`name=value` (Scenario A `"status=active"`) and a sequence value yields one
`name=element` pair per element (Scenario B `"tags=a&tags=b"`).  The source
instead applies `Object.entries` to the `appliedFilters` *array*, so the
loop's keys are the array's index strings and its values are the whole
`[name, value]` pairs: the store `{status: "active"}` serializes to
`"0=status&0=active"` and `{tags: ["a","b"]}` to `"0=tags&0=a%2Cb"`, not to
the claimed strings. -/
theorem getQueryString_uses_index_keys :
    getQueryString (setFilterValue [] "status" (JsVal.str "active") false false) =
      "0=status&0=active" ∧
    getQueryString (setFilterValue [] "tags"
        (JsVal.arr [JsVal.str "a", JsVal.str "b"]) false false) =
      "0=tags&0=a%2Cb" ∧
    getQueryString (setFilterValue [] "status" (JsVal.str "active") false false) ≠
      "status=active" ∧
    getQueryString (setFilterValue [] "tags"
        (JsVal.arr [JsVal.str "a", JsVal.str "b"]) false false) ≠
      "tags=a&tags=b" := by
  refine ⟨rfl, rfl, ?_, ?_⟩ <;> decide

/-- **C2** (counterexample) — The claim states that a malformed persisted
blob yields the empty mapping without error.  But the initializer runs
`JSON.parse` with no `try`/`catch`: on the malformed blob `"{"` the
`SyntaxError` propagates. -/
theorem initFilters_malformed_throws :
    noThrow (initFilters (some "\x7b")) = false := by decide

/-- **C2** (amended) — A missing persisted blob (and the falsy empty-string
blob) yields the empty mapping without error; a blob that is not valid JSON
makes initialization propagate the `JSON.parse` error instead of falling
back to the empty mapping. -/
theorem initFilters_missing_vs_malformed :
    initFilters none = Except.ok (Json.obj []) ∧
    initFilters (some "") = Except.ok (Json.obj []) ∧
    noThrow (initFilters (some "not json")) = false :=
  ⟨rfl, rfl, by decide⟩

/-- **C3** (counterexample) — The claim states `getAppliedFilters()` returns
the applied pairs in the mapping's insertion order.  JavaScript object
enumeration places integer-like keys first: after inserting `"b"` and then
`"1"`, the applied pairs come back as `[("1",…), ("b",…)]`, not in insertion
order. -/
theorem getAppliedFilters_order_counterexample :
    getAppliedFilters (setFilterValue (setFilterValue [] "b" (JsVal.str "x") false false)
        "1" (JsVal.str "y") false false) =
      [("1", JsVal.str "y"), ("b", JsVal.str "x")] ∧
    getAppliedFilters (setFilterValue (setFilterValue [] "b" (JsVal.str "x") false false)
        "1" (JsVal.str "y") false false) ≠
      [("b", JsVal.str "x"), ("1", JsVal.str "y")] := by
  refine ⟨rfl, ?_⟩
  intro h
  exact absurd (congrArg (fun l => l.map Prod.fst) h) (by decide)

/-- **C3** (amended) — For every sequence of
`setFilterValue`/`removeFilter`/`clearFilters` calls, `getAppliedFilters()`
returns exactly the `(name, value)` pairs of the current mapping whose value
is not the empty string, not null, not undefined, not an empty sequence and
not `NaN` (the `NaN` exclusion applying to numeric values only), with
last-write-wins per name and at most one entry per name; the pairs follow
the mapping's insertion order provided no filter name is an integer-like
array-index string (such names enumerate first, in numeric order).  In
particular `setFilterValue("count", NaN)` produces an entry excluded from
`getAppliedFilters()`. -/
theorem getAppliedFilters_spec :
    (∀ ops : List FilterOp,
      (∀ p ∈ runFilterOps ops, isArrayIndexKey p.1 = false) →
        getAppliedFilters (runFilterOps ops) = specAppliedFilters (runFilterOps ops)) ∧
    (∀ ops : List FilterOp, ((runFilterOps ops).map Prod.fst).Nodup) ∧
    (∀ (m : Filters) (n : String) (v : JsVal) (hid ai : Bool),
      lookupName (setFilterValue m n v hid ai) n = some ⟨v, hid, ai⟩) ∧
    (∀ (m : Filters) (w : JsVal),
      ("count", w) ∉
        getAppliedFilters (setFilterValue m "count" (JsVal.num JsNum.nan) false false)) := by
  refine ⟨?_, keys_nodup_runFilterOps, lookupName_setFilterValue_self, ?_⟩
  · intro ops hno
    rw [getAppliedFilters_eq_filterMap, jsOwnEntries_of_no_index _ hno]
    unfold specAppliedFilters
    simp only [appliedCheck_eq_spec]
  · intro m w hw
    rw [getAppliedFilters_eq_filterMap] at hw
    rcases List.mem_filterMap.mp hw with ⟨p, hp, hfp⟩
    have hpm := (jsOwnEntries_perm _).mem_iff.mp hp
    by_cases hc : appliedCheck p.2.value = true
    · rw [if_pos hc] at hfp
      have hpair := Option.some.inj hfp
      have hk : p.1 = "count" := congrArg Prod.fst hpair
      have hpeq := mem_setFilterValue_key m "count" (JsVal.num JsNum.nan)
        false false p hpm hk
      rw [hpeq] at hc
      exact absurd hc (by decide)
    · rw [if_neg hc] at hfp
      cases hfp

/-- Witness for the hypotheses of `getAppliedFilters_spec` at concrete
inputs. -/
theorem getAppliedFilters_spec_witness :
    (∀ p ∈ runFilterOps [FilterOp.set "status" (JsVal.str "active") false false,
        FilterOp.set "empty" (JsVal.str "") false false],
      isArrayIndexKey p.1 = false) ∧
    getAppliedFilters (runFilterOps [FilterOp.set "status" (JsVal.str "active") false false,
        FilterOp.set "empty" (JsVal.str "") false false]) =
      specAppliedFilters (runFilterOps [FilterOp.set "status" (JsVal.str "active") false false,
        FilterOp.set "empty" (JsVal.str "") false false]) ∧
    lookupName (setFilterValue [] "status" (JsVal.str "active") false false) "status" =
      some ⟨JsVal.str "active", false, false⟩ ∧
    ("count", JsVal.num JsNum.nan) ∉
      getAppliedFilters (setFilterValue [] "count" (JsVal.num JsNum.nan) false false) :=
  ⟨by decide, getAppliedFilters_spec.1 _ (by decide),
    getAppliedFilters_spec.2.2.1 [] "status" (JsVal.str "active") false false,
    getAppliedFilters_spec.2.2.2 [] (JsVal.num JsNum.nan)⟩

/-- **C4** (counterexample) — The claim states every mapping the store can
hold survives the persistence round trip with deep-equal entries.  A store
holding the number `NaN` (which `setFilterValue("count", NaN)` produces)
comes back with `null` instead: `JSON.stringify(NaN)` writes `null`. -/
theorem persistedRoundTrip_nan_counterexample :
    lookupName (persistedRoundTrip [("count", ⟨JsVal.num JsNum.nan, false, false⟩)])
        "count" = some ⟨JsVal.null, false, false⟩ ∧
    persistedRoundTrip [("count", ⟨JsVal.num JsNum.nan, false, false⟩)] ≠
      [("count", ⟨JsVal.num JsNum.nan, false, false⟩)] := by
  refine ⟨rfl, ?_⟩
  intro h
  have h2 : (some (⟨JsVal.null, false, false⟩ : FilterValue)) =
      some (⟨JsVal.num JsNum.nan, false, false⟩ : FilterValue) :=
    congrArg (fun l => lookupName l "count") h
  simp at h2

/-- **C4** (amended) — For every mapping the store can hold whose values are
of the TypeScript value type and contain no `NaN`, persisting it and
re-initializing a store from the persisted blob yields a mapping deep-equal
to the original: every name reads back the identical entry (value,
`isHidden`, `appliedInternally`). -/
theorem persistedRoundTrip_deep_equal (m : Filters)
    (hnd : (m.map Prod.fst).Nodup)
    (hts : ∀ p ∈ m, isTSValue p.2.value = true ∧ numberIsNaN p.2.value = false)
    (k : String) :
    lookupName (persistedRoundTrip m) k = lookupName m k := by
  rw [persistedRoundTrip_eq_jsOwnEntries m hts]
  exact lookupName_eq_of_perm (jsOwnEntries_perm m)
    ((((jsOwnEntries_perm m).map Prod.fst).symm).nodup hnd) k

/-- Witness for the hypotheses of `persistedRoundTrip_deep_equal` at a
concrete store (including an array-index name, so enumeration reorders). -/
theorem persistedRoundTrip_deep_equal_witness :
    ((([("b", ⟨JsVal.str "x", false, false⟩),
        ("1", ⟨JsVal.arr [JsVal.str "a"], true, false⟩),
        ("n", ⟨JsVal.num (JsNum.int 3), false, true⟩)] : Filters).map Prod.fst).Nodup) ∧
    lookupName (persistedRoundTrip [("b", ⟨JsVal.str "x", false, false⟩),
        ("1", ⟨JsVal.arr [JsVal.str "a"], true, false⟩),
        ("n", ⟨JsVal.num (JsNum.int 3), false, true⟩)]) "b" =
      lookupName [("b", ⟨JsVal.str "x", false, false⟩),
        ("1", ⟨JsVal.arr [JsVal.str "a"], true, false⟩),
        ("n", ⟨JsVal.num (JsNum.int 3), false, true⟩)] "b" :=
  ⟨by decide, persistedRoundTrip_deep_equal _ (by decide) (by decide) "b"⟩

/-- **C5** — For every store state and every form submission whose values
fail schema validation, the `FiltersSheet` controller stays as it was (in
particular an open sheet stays open), the store mapping is unchanged, no
outward call is made, and the failure surfaces only as per-field errors. -/
theorem submit_invalid_keeps_state (validate : FormValidator) (st : SheetState)
    (form : FormData) (errs : FieldErrors) (h : validate form = .error errs) :
    (submitFilters validate st form).sheetOpen = st.sheetOpen ∧
    (submitFilters validate st form).store = st.store ∧
    (submitFilters validate st form).fieldErrors = errs ∧
    (submitFilters validate st form).events = st.events := by
  unfold submitFilters
  rw [h]
  exact ⟨rfl, rfl, rfl, rfl⟩

/-- Witness for the hypothesis of `submit_invalid_keeps_state` with a
concrete always-failing validator. -/
theorem submit_invalid_keeps_state_witness :
    (submitFilters (fun _ => Except.error [("status", "Required")])
        ⟨true, [("a", ⟨JsVal.bool true, false, false⟩)], [], []⟩ []).sheetOpen = true ∧
    (submitFilters (fun _ => Except.error [("status", "Required")])
        ⟨true, [("a", ⟨JsVal.bool true, false, false⟩)], [], []⟩ []).store =
      [("a", ⟨JsVal.bool true, false, false⟩)] ∧
    (submitFilters (fun _ => Except.error [("status", "Required")])
        ⟨true, [("a", ⟨JsVal.bool true, false, false⟩)], [], []⟩ []).fieldErrors =
      [("status", "Required")] ∧
    (submitFilters (fun _ => Except.error [("status", "Required")])
        ⟨true, [("a", ⟨JsVal.bool true, false, false⟩)], [], []⟩ []).events = [] :=
  submit_invalid_keeps_state (fun _ => Except.error [("status", "Required")])
    ⟨true, [("a", ⟨JsVal.bool true, false, false⟩)], [], []⟩ [] [("status", "Required")] rfl

/-- **C6** — For every form submission whose values pass schema validation,
the controller calls `setFilterValue` for every validated field (hence for
every changed field), closes the sheet, and notifies the caller with the
validated values. -/
theorem submit_valid_applies (validate : FormValidator) (st : SheetState)
    (form data : FormData) (h : validate form = .ok data) :
    (submitFilters validate st form).sheetOpen = false ∧
    (∀ kv ∈ data,
      SheetEvent.setValueCall kv.1 kv.2 ∈ (submitFilters validate st form).events) ∧
    SheetEvent.applyNotified data ∈ (submitFilters validate st form).events ∧
    SheetEvent.closeNotified ∈ (submitFilters validate st form).events := by
  unfold submitFilters
  rw [h]
  refine ⟨rfl, ?_, by simp, by simp⟩
  intro kv hkv
  have h1 : kv ∈ jsOwnEntries data := (jsOwnEntries_perm data).mem_iff.mpr hkv
  simp only [List.mem_append]
  exact Or.inl (Or.inr (List.mem_map_of_mem _ h1))

/-- Witness for the hypothesis of `submit_valid_applies` with a concrete
always-accepting validator. -/
theorem submit_valid_applies_witness :
    (submitFilters (fun f => Except.ok f) ⟨true, [], [], []⟩
        [("status", JsVal.str "active")]).sheetOpen = false ∧
    (∀ kv ∈ ([("status", JsVal.str "active")] : FormData),
      SheetEvent.setValueCall kv.1 kv.2 ∈
        (submitFilters (fun f => Except.ok f) ⟨true, [], [], []⟩
          [("status", JsVal.str "active")]).events) ∧
    SheetEvent.applyNotified [("status", JsVal.str "active")] ∈
      (submitFilters (fun f => Except.ok f) ⟨true, [], [], []⟩
        [("status", JsVal.str "active")]).events ∧
    SheetEvent.closeNotified ∈
      (submitFilters (fun f => Except.ok f) ⟨true, [], [], []⟩
        [("status", JsVal.str "active")]).events :=
  submit_valid_applies (fun f => Except.ok f) ⟨true, [], [], []⟩
    [("status", JsVal.str "active")] [("status", JsVal.str "active")] rfl

/-- **C7** — `removeFilter(name)` deletes the entry for the name if present
(the name reads back as absent), is the identity when the name is absent
(raising no error), and on the empty store `removeFilter("missing-name")`
leaves the mapping empty. -/
theorem removeFilter_spec :
    (∀ (m : Filters) (n : String), lookupName (removeFilter m n) n = none) ∧
    (∀ (m : Filters) (n : String), lookupName m n = none → removeFilter m n = m) ∧
    removeFilter [] "missing-name" = [] :=
  ⟨lookupName_removeFilter_self, removeFilter_of_absent, rfl⟩

/-- Witness for the hypothesis inside `removeFilter_spec` at concrete
inputs. -/
theorem removeFilter_spec_witness :
    lookupName (removeFilter [("a", ⟨JsVal.str "x", false, false⟩)] "a") "a" = none ∧
    removeFilter [("a", ⟨JsVal.str "x", false, false⟩)] "missing-name" =
      [("a", ⟨JsVal.str "x", false, false⟩)] ∧
    removeFilter [] "missing-name" = [] :=
  ⟨removeFilter_spec.1 [("a", ⟨JsVal.str "x", false, false⟩)] "a",
    removeFilter_spec.2.1 [("a", ⟨JsVal.str "x", false, false⟩)] "missing-name" rfl,
    removeFilter_spec.2.2⟩

/-- **C8** — `clearFilters()` is idempotent (and always yields the empty
mapping), and immediately repeating `setFilterValue` with the same arguments
or `removeFilter` with the same name leaves the mapping equal to the
single-invocation result. -/
theorem store_mutations_idempotent :
    (∀ m : Filters, clearFilters m = []) ∧
    (∀ m : Filters, clearFilters (clearFilters m) = clearFilters m) ∧
    (∀ (m : Filters) (n : String) (v : JsVal) (hid ai : Bool),
      setFilterValue (setFilterValue m n v hid ai) n v hid ai =
        setFilterValue m n v hid ai) ∧
    (∀ (m : Filters) (n : String),
      removeFilter (removeFilter m n) n = removeFilter m n) :=
  ⟨fun _ => rfl, fun _ => rfl, setFilterValue_idem, removeFilter_idem⟩

/-- **C9** — On every successful apply, the controller calls
`setFilterValue` with only the name and the value, so every submitted
field's entry ends with `isHidden = false` and `appliedInternally = false` —
whatever the previous entry's flags were. -/
theorem submit_resets_entry_flags (validate : FormValidator) (st : SheetState)
    (form data : FormData) (h : validate form = .ok data)
    (hnd : (data.map Prod.fst).Nodup) (k : String) (v : JsVal)
    (hmem : (k, v) ∈ data) :
    lookupName (submitFilters validate st form).store k =
      some ⟨v, false, false⟩ := by
  unfold submitFilters
  rw [h]
  exact lookupName_foldl_set (jsOwnEntries data) st.store k v
    ((((jsOwnEntries_perm data).map Prod.fst).symm).nodup hnd)
    ((jsOwnEntries_perm data).mem_iff.mpr hmem)

/-- Witness for the hypotheses of `submit_resets_entry_flags`: the previous
entry for "status" has both flags `true`; after a successful apply they are
`false`. -/
theorem submit_resets_entry_flags_witness :
    ((([("status", JsVal.str "active")] : FormData).map Prod.fst).Nodup) ∧
    lookupName (submitFilters (fun f => Except.ok f)
        ⟨true, [("status", ⟨JsVal.str "old", true, true⟩)], [], []⟩
        [("status", JsVal.str "active")]).store "status" =
      some ⟨JsVal.str "active", false, false⟩ :=
  ⟨by decide,
    submit_resets_entry_flags (fun f => Except.ok f)
      ⟨true, [("status", ⟨JsVal.str "old", true, true⟩)], [], []⟩
      [("status", JsVal.str "active")] [("status", JsVal.str "active")] rfl
      (by decide) "status" (JsVal.str "active") (List.mem_cons_self _ _)⟩

/-- **C10** — For distinct names `k ≠ n`, both `setFilterValue` on `n` and
`removeFilter` of `n` leave the entry of `k` unchanged. -/
theorem mutations_frame (m : Filters) (n k : String) (v : JsVal) (hid ai : Bool)
    (hk : k ≠ n) :
    lookupName (setFilterValue m n v hid ai) k = lookupName m k ∧
    lookupName (removeFilter m n) k = lookupName m k :=
  ⟨lookupName_setFilterValue_ne m n k v hid ai hk,
    lookupName_removeFilter_ne m n k hk⟩

/-- Witness for the hypothesis of `mutations_frame` at concrete distinct
names. -/
theorem mutations_frame_witness :
    lookupName (setFilterValue [("b", ⟨JsVal.bool true, true, true⟩)] "a"
        (JsVal.str "z") false false) "b" =
      lookupName [("b", ⟨JsVal.bool true, true, true⟩)] "b" ∧
    lookupName (removeFilter [("b", ⟨JsVal.bool true, true, true⟩)] "a") "b" =
      lookupName [("b", ⟨JsVal.bool true, true, true⟩)] "b" :=
  mutations_frame [("b", ⟨JsVal.bool true, true, true⟩)] "a" "b"
    (JsVal.str "z") false false (by decide)

end WorkupFilters
